import Mathlib

/-!
Shallow embedding of the `fixos` remediation orchestrator
(`src/fixos/orchestrator/graph.py`, `executor.py`, `orchestrator.py`).

Modelling conventions:
* Python dicts (`ProblemGraph.nodes`, `in_degree`) are insertion-ordered
  association lists `List (String × _)`; `dictInsert` models `d[k] = v`
  (replace in place when the key exists, append otherwise) and `setFirst`
  models in-place update of an existing entry.
* `status` and `severity` are `String`s: the Python `Literal` annotations
  are not enforced at runtime (the loop really assigns `"skipped"`, a value
  outside the declared `ProblemStatus` literal).
* Machine effects are oracles: `ExecEnv.runProbe` is the outcome of
  `subprocess.run(check_cmd, shell=True, capture_output=True, timeout=5)`
  (`some rc` = completed with that return code, `none` = any exception,
  including `TimeoutExpired`); `ExecEnv.runCmd` is the outcome of running
  the main command under the resolved timeout.
* The regex table `DANGEROUS_PATTERNS` together with `re.search` is
  abstracted as a parameter `is_dangerous : String → Option String`
  returning the first matching reason, exactly the information
  `CommandExecutor.is_dangerous` produces; the theorems hold for every
  such matcher.
* Floats (`confidence`, `auto_confirm_threshold`) are modelled as `Rat`;
  the loop only compares them.
-/

namespace FixOS

/-- `Problem` dataclass from `graph.py` (the opaque `context` dict carries
no logic and is omitted). Defaults follow the dataclass defaults. -/
structure Problem where
  id : String
  description : String
  severity : String
  fix_commands : List String
  status : String := "pending"
  caused_by : List String := []
  may_cause : List String := []
  attempts : Nat := 0
  max_attempts : Nat := 3
deriving DecidableEq, Repr

/-- The values of the `ProblemStatus` literal type declared in `graph.py`. -/
def PROBLEM_STATUSES : List String :=
  ["pending", "in_progress", "resolved", "failed", "blocked"]

/-- `Problem.is_actionable`: `status == "pending" and attempts < max_attempts`. -/
def Problem.is_actionable (p : Problem) : Bool :=
  p.status == "pending" && p.attempts < p.max_attempts

/-- `ProblemGraph`: insertion-ordered node dict plus the derived
`execution_order`. -/
structure ProblemGraph where
  nodes : List (String × Problem)
  execution_order : List String
deriving DecidableEq, Repr

/-- Fresh graph (`ProblemGraph.__init__`). -/
def ProblemGraph.empty : ProblemGraph := ⟨[], []⟩

/-- Python dict assignment `d[k] = v`: replace the first entry with an
equal key in place, append when absent. -/
def dictInsert : List (String × Problem) → String → Problem → List (String × Problem)
  | [], k, p => [(k, p)]
  | kv :: rest, k, p => if kv.1 = k then (k, p) :: rest else kv :: dictInsert rest k p

/-- In-place update of an existing `in_degree` entry (`d[k] = v` for a
present key; absent keys are left alone). -/
def setFirst : List (String × Int) → String → Int → List (String × Int)
  | [], _, _ => []
  | kv :: rest, k, v => if kv.1 = k then (k, v) :: rest else kv :: setFirst rest k v

/-- `in_degree[p.id] = in_degree.get(p.id, 0) + 1`. -/
def bumpFirst : List (String × Int) → String → List (String × Int)
  | [], k => [(k, 1)]
  | kv :: rest, k => if kv.1 = k then (k, kv.2 + 1) :: rest else kv :: bumpFirst rest k

/-- Key column of an association list. -/
def keysOf {α : Type} (l : List (String × α)) : List String :=
  l.map (fun kv => kv.1)

/-- Inner loop of the in-degree build: one increment of `k`'s degree per
dependency that exists in the graph. -/
def bumpFor (nodes : List (String × Problem)) (k : String)
    (deg : List (String × Int)) (deps : List String) : List (String × Int) :=
  deps.foldl (fun d dep => if (nodes.lookup dep).isSome then bumpFirst d k else d) deg

/-- The in-degree table built by `_recalculate_order`: every node starts at
0, then one increment per `caused_by` entry that exists in the graph. -/
def initialDeg (nodes : List (String × Problem)) : List (String × Int) :=
  nodes.foldl
    (fun deg kv => bumpFor nodes kv.1 deg kv.2.caused_by)
    (nodes.map (fun kv => (kv.1, (0 : Int))))

/-- `self.nodes[pid].may_cause` as used inside the Kahn loop (the index is
total there because queue members are always node keys). -/
def childrenOf (nodes : List (String × Problem)) (pid : String) : List String :=
  match nodes.lookup pid with
  | some p => p.may_cause
  | none => []

/-- The Kahn queue seeded with the zero-degree ids, in table order. -/
def initialQueue (deg : List (String × Int)) : List String :=
  (deg.filter (fun kv => kv.2 == 0)).map (fun kv => kv.1)

/-- Sum of the positive parts of the in-degree table; the Kahn loop's
termination measure. -/
def posSum (deg : List (String × Int)) : Nat :=
  (deg.map (fun kv => kv.2.toNat)).sum

/-- One pass of `for child_id in p.may_cause: ...` — decrement each child
present in `in_degree` (sequentially, duplicates decrement twice) and
collect, in order, the children whose degree reaches exactly 0. -/
def decChildren : List String → List (String × Int) → List (String × Int) × List String
  | [], deg => (deg, [])
  | c :: cs, deg =>
    match deg.lookup c with
    | none => decChildren cs deg
    | some d =>
      let r := decChildren cs (setFirst deg c (d - 1))
      (r.1, if d - 1 = 0 then c :: r.2 else r.2)

theorem setFirst_posSum (deg : List (String × Int)) (c : String) (d v : Int)
    (h : deg.lookup c = some d) :
    posSum (setFirst deg c v) + d.toNat = posSum deg + v.toNat := by
  induction deg with
  | nil => simp [List.lookup] at h
  | cons kv rest ih =>
    by_cases hk : kv.1 = c
    · have hbeq : (c == kv.1) = true := by simp [hk]
      rw [List.lookup] at h
      simp [hbeq] at h
      subst h
      simp [setFirst, hk, posSum]
      omega
    · have hbeq : (c == kv.1) = false := by simp; exact fun hc => hk hc.symm
      rw [List.lookup] at h
      simp [hbeq] at h
      have := ih h
      simp [setFirst, hk, posSum] at this ⊢
      omega

theorem decChildren_posSum (cs : List String) (deg : List (String × Int)) :
    posSum (decChildren cs deg).1 + (decChildren cs deg).2.length ≤ posSum deg := by
  induction cs generalizing deg with
  | nil => simp [decChildren]
  | cons c cs ih =>
    rw [decChildren]
    cases h : deg.lookup c with
    | none => exact ih deg
    | some d =>
      simp only
      have hset := setFirst_posSum deg c d (d - 1) h
      have hrec := ih (setFirst deg c (d - 1))
      by_cases hz : d - 1 = 0
      · have hd : d = 1 := by omega
        rw [hz] at hset hrec ⊢
        simp at hset ⊢
        omega
      · simp [hz]
        omega

/-- The `while queue:` loop of Kahn's algorithm in `_recalculate_order`:
pop from the left, append to `order`, decrement children, enqueue children
reaching degree 0. -/
def kahnLoop (nodes : List (String × Problem)) :
    List (String × Int) → List String → List String → List String
  | _, [], order => order
  | deg, pid :: qs, order =>
    let r := decChildren (childrenOf nodes pid) deg
    kahnLoop nodes r.1 (qs ++ r.2) (order ++ [pid])
termination_by deg queue _ => queue.length + posSum deg
decreasing_by
  simp only [List.length_append, List.length_cons]
  have := decChildren_posSum (childrenOf nodes pid) deg
  omega

/-- `severity_rank` lookup with default 3. -/
def severityRank (s : String) : Nat :=
  if s = "critical" then 0 else if s = "warning" then 1 else if s = "info" then 2 else 3

/-- The secondary sort key `(self.nodes[pid].caused_by != [], severity_rank…)`
(the lookup is total on the sorted list, whose members are node keys). -/
def sortKey (nodes : List (String × Problem)) (pid : String) : Bool × Nat :=
  match nodes.lookup pid with
  | some p => (decide (p.caused_by ≠ []), severityRank p.severity)
  | none => (true, 3)

/-- Strict lexicographic comparison of sort keys (Python tuple `<`,
`False < True`). -/
def keyLt (a b : Bool × Nat) : Bool :=
  (!a.1 && b.1) || (a.1 == b.1 && a.2 < b.2)

/-- Stable insertion of `x` (a later element) after all existing elements
whose key is not greater. -/
def insSorted (key : String → Bool × Nat) (x : String) : List String → List String
  | [] => [x]
  | y :: ys => if keyLt (key y) (key x) then y :: insSorted key x ys else x :: y :: ys

/-- Stable sort by key — the unique stable sort, hence the model of
Python's `list.sort(key=…)`. -/
def stableSortBy (key : String → Bool × Nat) : List String → List String
  | [] => []
  | x :: xs => insSorted key x (stableSortBy key xs)

/-- `ProblemGraph._recalculate_order`: Kahn topological pass, append the
nodes the sort never reached (cycles), then the stable secondary sort. -/
def recalculateOrder (nodes : List (String × Problem)) : List String :=
  let deg := initialDeg nodes
  let order := kahnLoop nodes deg (initialQueue deg) []
  let remaining := (keysOf nodes).filter (fun pid => !(order.contains pid))
  stableSortBy (sortKey nodes) (order ++ remaining)

/-- `ProblemGraph.add`: insert/overwrite by id, then recompute the order. -/
def ProblemGraph.add (g : ProblemGraph) (p : Problem) : ProblemGraph :=
  let ns := dictInsert g.nodes p.id p
  ⟨ns, recalculateOrder ns⟩

/-- `deps_resolved` inside `next_actionable`: every `caused_by` entry that
exists in the graph has status `"resolved"`. -/
def depsResolved (g : ProblemGraph) (p : Problem) : Bool :=
  p.caused_by.all (fun dep =>
    match g.nodes.lookup dep with
    | some q => q.status == "resolved"
    | none => true)

/-- The scan of `execution_order` in `next_actionable` (the source indexes
`self.nodes[pid]` directly; a missing key — impossible on graphs this class
builds — is skipped here). -/
def findActionable (g : ProblemGraph) : List String → Option Problem
  | [] => none
  | pid :: rest =>
    match g.nodes.lookup pid with
    | none => findActionable g rest
    | some p =>
      if p.is_actionable && depsResolved g p then some p else findActionable g rest

/-- `ProblemGraph.next_actionable`. -/
def ProblemGraph.next_actionable (g : ProblemGraph) : Option Problem :=
  findActionable g g.execution_order

/-- The terminal statuses recognised by `all_done`. -/
def ALL_DONE_STATUSES : List String := ["resolved", "failed", "blocked"]

/-- `ProblemGraph.all_done`. -/
def ProblemGraph.all_done (g : ProblemGraph) : Bool :=
  g.nodes.all (fun kv => ALL_DONE_STATUSES.contains kv.2.status)

/-- `ProblemGraph.pending_count`. -/
def ProblemGraph.pending_count (g : ProblemGraph) : Nat :=
  (g.nodes.filter (fun kv => kv.2.status == "pending")).length

/-! ## Command executor (`executor.py`) -/

/-- `ExecutionResult` dataclass, with the dataclass defaults. -/
structure ExecutionResult where
  command : String
  returncode : Int := 0
  stdout : String := ""
  stderr : String := ""
  executed : Bool := true
  preview : String := ""
  timed_out : Bool := false
  error : Option String := none
deriving DecidableEq, Repr

/-- `ExecutionResult.success`. -/
def ExecutionResult.success (r : ExecutionResult) : Bool :=
  r.executed && r.returncode == 0

/-- The two exceptions `execute_sync`/`execute` can raise:
`DangerousCommandError(command, reason)` and
`CommandTimeoutError(command, timeout)`. -/
inductive ExecError where
  | dangerous (command reason : String)
  | timeout (command : String) (timeout : Nat)
deriving DecidableEq, Repr

/-- Outcome of handing the main command to the OS: the process completed,
`subprocess.TimeoutExpired` was raised, or the spawn itself raised
(the generic `except Exception` branch). -/
inductive SpawnOutcome where
  | completed (returncode : Int) (stdout stderr : String)
  | timedOut
  | spawnFailed (msg : String)
deriving DecidableEq, Repr

/-- Machine oracle for one executor call. `runProbe chk 5` is the result of
the 5-second idempotency probe (`some rc` = completed, `none` = any
exception, e.g. its timeout); `runCmd cmd t` is the outcome of the main
command under timeout `t`. -/
structure ExecEnv where
  runProbe : String → Nat → Option Int
  runCmd : String → Nat → SpawnOutcome

/-- `CommandExecutor` construction parameters. -/
structure Executor where
  default_timeout : Nat := 60
  require_confirmation : Bool := true
  dry_run : Bool := false
deriving DecidableEq, Repr

/-- `NEEDS_SUDO_PREFIXES` from `executor.py`. -/
def NEEDS_SUDO_Pfx : List String :=
  ["dnf", "rpm", "systemctl", "firewall-cmd", "setenforce",
   "chmod 0", "chown", "modprobe", "rmmod", "insmod",
   "mount", "umount", "fdisk", "parted", "lvextend",
   "useradd", "userdel", "usermod", "groupadd",
   "update-grub", "grub2-mkconfig"]

/-- ASCII whitespace, as stripped by Python `str.strip()` on command
text. -/
def isWS (c : Char) : Bool := c == ' ' || c == '\t' || c == '\n' || c == '\r'

/-- Python `str.strip()` (remove whitespace at both ends). Defined over
the character list so that it evaluates inside the kernel. -/
def pyStrip (s : String) : String :=
  String.mk (((s.data.dropWhile isWS).reverse.dropWhile isWS).reverse)

/-- Python `str.startswith(p)`. -/
def strStartsWith (s p : String) : Bool := p.data.isPrefixOf s.data

/-- Python `str.lower()` (ASCII). -/
def lowerStr (s : String) : String := String.mk (s.data.map Char.toLower)

/-- `CommandExecutor.needs_sudo`. -/
def needs_sudo (command : String) : Bool :=
  let cmd := pyStrip command
  if strStartsWith cmd "sudo" then false
  else NEEDS_SUDO_Pfx.any (fun p => strStartsWith cmd p)

/-- `CommandExecutor.add_sudo`. -/
def add_sudo (command : String) : String :=
  if needs_sudo command then "sudo " ++ pyStrip command else command

/-- `re.match(lit + "(.+)", s, re.IGNORECASE)`: anchored case-insensitive
literal, then a greedy nonempty group of non-newline characters; returns
the captured group. The `IDEMPOTENT_CHECK` patterns are all of this
shape. -/
def reMatchCapture (lit : String) (s : String) : Option String :=
  if lowerStr (String.mk (s.data.take lit.data.length)) = lowerStr lit then
    let rest := (s.data.drop lit.data.length).takeWhile (fun ch => ch != '\n')
    if rest.isEmpty then none else some (String.mk rest)
  else none

/-- `IDEMPOTENT_CHECK` from `executor.py`: each regex `lit(.+)` paired with
the `"…{0}…".format(group)` template (the `IndexError` guard never fires:
each pattern has exactly one group). -/
def IDEMPOTENT_CHECK : List (String × (String → String)) :=
  [("dnf install ", fun g => "rpm -q " ++ g ++ " &>/dev/null"),
   ("systemctl enable ", fun g => "systemctl is-enabled " ++ g ++ " &>/dev/null"),
   ("systemctl start ", fun g => "systemctl is-active " ++ g ++ " &>/dev/null"),
   ("mkdir -p ", fun g => "test -d " ++ g)]

/-- `CommandExecutor.check_idempotent`: first matching template wins,
matching on `command.strip()`. -/
def check_idempotent (command : String) : Option String :=
  go IDEMPOTENT_CHECK
where
  go : List (String × (String → String)) → Option String
    | [] => none
    | (lit, tpl) :: rest =>
      match reMatchCapture lit (pyStrip command) with
      | some g => some (tpl g)
      | none => go rest

/-- The sentinel stdout of an idempotency skip. -/
def ALREADY_DONE : String := "(już wykonane – stan aktualny)"

/-- `timeout or self.default_timeout` (note: Python treats `0` as falsy). -/
def resolveTimeout (ex : Executor) : Option Nat → Nat
  | some n => if n = 0 then ex.default_timeout else n
  | none => ex.default_timeout

/-- `CommandExecutor.execute_sync`. Returns the list of commands handed to
`subprocess.run` (probe first, then possibly the main command), paired with
the Python result: `.ok` a returned `ExecutionResult`, `.error` a raised
exception. `dm` abstracts `is_dangerous` (the regex table). -/
def execute_sync (ex : Executor) (dm : String → Option String) (env : ExecEnv)
    (command : String) (timeout : Option Nat := none)
    (addSudoFlag : Bool := true) (checkIdem : Bool := true) :
    List String × Except ExecError ExecutionResult :=
  let t := resolveTimeout ex timeout
  match dm command with
  | some reason => ([], .error (.dangerous command reason))
  | none =>
    let cmd := if addSudoFlag then add_sudo command else command
    let probe : List String × Option ExecutionResult :=
      if checkIdem then
        match check_idempotent cmd with
        | some chk =>
          ([chk],
            match env.runProbe chk 5 with
            | some rc =>
              if rc = 0 then
                some { command := cmd, returncode := 0, stdout := ALREADY_DONE,
                       executed := false }
              else none
            | none => none)
        | none => ([], none)
      else ([], none)
    match probe with
    | (tr, some r) => (tr, .ok r)
    | (tr, none) =>
      if ex.dry_run then
        (tr, .ok { command := cmd, executed := false, preview := "[DRY-RUN] " ++ cmd })
      else
        match env.runCmd cmd t with
        | .completed rc out err =>
          (tr ++ [cmd], .ok { command := cmd, returncode := rc,
                              stdout := pyStrip out, stderr := pyStrip err })
        | .timedOut => (tr ++ [cmd], .error (.timeout cmd t))
        | .spawnFailed msg =>
          (tr ++ [cmd], .ok { command := cmd, executed := false, error := some msg })

/-- `CommandExecutor.execute` (the async variant): danger check, elevation
and dry-run as in `execute_sync`, but no idempotency probe. -/
def execute (ex : Executor) (dm : String → Option String) (env : ExecEnv)
    (command : String) (timeout : Option Nat := none)
    (addSudoFlag : Bool := true) :
    List String × Except ExecError ExecutionResult :=
  let t := resolveTimeout ex timeout
  match dm command with
  | some reason => ([], .error (.dangerous command reason))
  | none =>
    let cmd := if addSudoFlag then add_sudo command else command
    if ex.dry_run then
      ([], .ok { command := cmd, executed := false, preview := "[DRY-RUN] " ++ cmd })
    else
      match env.runCmd cmd t with
      | .completed rc out err =>
        ([cmd], .ok { command := cmd, returncode := rc,
                      stdout := pyStrip out, stderr := pyStrip err })
      | .timedOut => ([cmd], .error (.timeout cmd t))
      | .spawnFailed msg =>
        ([cmd], .ok { command := cmd, executed := false, error := some msg })

/-! ## Orchestrator (`orchestrator.py`) -/

/-- Outcome of `confirm_fn(problem, cmd)`: returned `True`, returned
`False`, or raised `_SkipAll`. -/
inductive ConfirmAnswer where
  | approve
  | decline
  | skipAll
deriving DecidableEq, Repr

/-- The fields of one `new_problems` entry of a collaborator reply that
`_evaluate_and_rediagnose` reads (a `Problem` is then built from them with
the dataclass defaults: status `"pending"`, `attempts = 0`,
`max_attempts = 3`). -/
structure NewProblemData where
  id : String
  description : String
  severity : String
  fix_commands : List String
  related_to : List String
deriving DecidableEq, Repr

/-- Result of the collaborator verdict call as seen by
`_evaluate_and_rediagnose`: either the call raised `LLMError`/`ValueError`
(transport error, no parsable JSON, bad confidence literal), or it produced
a parsed verdict object. -/
inductive LLMReply where
  | failure
  | verdictReply (verdict : String) (confidence : Rat) (new_problems : List NewProblemData)
deriving DecidableEq, Repr

/-- `Problem(**pd)` as built inside `_evaluate_and_rediagnose`. -/
def NewProblemData.toProblem (d : NewProblemData) : Problem :=
  { id := d.id, description := d.description, severity := d.severity,
    fix_commands := d.fix_commands, caused_by := d.related_to }

/-- `FixOrchestrator._evaluate_and_rediagnose`, given the collaborator's
reply: sets the problem's status and returns the newly reported problems
(empty on the exit-code fallback path). -/
def evaluateAndRediagnose (threshold : Rat) (reply : LLMReply)
    (problem : Problem) (result : ExecutionResult) : Problem × List Problem :=
  match reply with
  | .verdictReply verdict confidence nps =>
    let status :=
      if verdict = "resolved" ∨ (verdict = "partial" ∧ threshold ≤ confidence) then
        "resolved"
      else if problem.max_attempts ≤ problem.attempts then "failed"
      else "pending"
    ({ problem with status := status }, nps.map NewProblemData.toProblem)
  | .failure =>
    let status :=
      if result.success then "resolved"
      else if problem.max_attempts ≤ problem.attempts then "failed"
      else "pending"
    ({ problem with status := status }, [])

/-- Oracles of one `run_sync` session: the confirmation policy, the danger
matcher, the machine, and the collaborator verdict call. -/
structure LoopEnv where
  confirm : Problem → String → ConfirmAnswer
  is_dangerous : String → Option String
  exec : ExecEnv
  llm : Problem → ExecutionResult → LLMReply

/-- Result of the `for cmd in problem.fix_commands` loop of `run_sync`:
the (possibly restatused) problem, `last_result`, the `skip_all` flag, and
the list of commands that reached the executor. -/
structure CommandsOutcome where
  problem : Problem
  lastResult : Option ExecutionResult
  skipAll : Bool
  attempted : List String
deriving Repr

/-- The inner command loop of `run_sync`: confirm each command, run it
through `execute_sync` (with all executor defaults), stop on decline /
skip-all / `DangerousCommandError` / `CommandTimeoutError` / an executed
non-zero-exit result. -/
def runCommands (env : LoopEnv) (ex : Executor) :
    Problem → List String → Option ExecutionResult → CommandsOutcome
  | p, [], last => ⟨p, last, false, []⟩
  | p, cmd :: rest, last =>
    match env.confirm p cmd with
    | .decline => ⟨{ p with status := "skipped" }, last, false, []⟩
    | .skipAll => ⟨{ p with status := "skipped" }, last, true, []⟩
    | .approve =>
      match (execute_sync ex env.is_dangerous env.exec cmd).2 with
      | .error (.dangerous _ _) => ⟨{ p with status := "failed" }, last, false, [cmd]⟩
      | .error (.timeout _ _) =>
        ⟨p, some { command := cmd, executed := false, timed_out := true }, false, [cmd]⟩
      | .ok r =>
        if !r.success && r.executed then ⟨p, some r, false, [cmd]⟩
        else
          let o := runCommands env ex p rest (some r)
          ⟨o.problem, o.lastResult, o.skipAll, cmd :: o.attempted⟩

/-- Replace the value stored under `pid` (models in-place mutation of the
`Problem` object the graph holds; a `pid` not in the dict changes
nothing, matching mutation of an object the dict no longer holds). -/
def updateNode (g : ProblemGraph) (pid : String) (p : Problem) : ProblemGraph :=
  ⟨go g.nodes, g.execution_order⟩
where
  go : List (String × Problem) → List (String × Problem)
    | [] => []
    | kv :: rest => if kv.1 = pid then (pid, p) :: rest else kv :: go rest

/-- The `for np in new_problems` suffix of a loop iteration: wire
`caused_by`/`may_cause` edges and `graph.add` each discovery. `inG`
tracks whether the `problem` object is still the dict occupant of its id
(an id-colliding discovery evicts it, after which mutating it no longer
affects the graph). -/
def integrateNew (g : ProblemGraph) : Problem → Bool → List Problem → ProblemGraph
  | _, _, [] => g
  | cur, inG, np :: rest =>
    let np' := { np with caused_by := np.caused_by ++ [cur.id] }
    let cur' := { cur with may_cause := cur.may_cause ++ [np'.id] }
    let g1 := if inG then updateNode g cur'.id cur' else g
    let g2 := g1.add np'
    integrateNew g2 cur' (inG && !(np'.id == cur.id)) rest

/-- One iteration of the `while` loop of `run_sync`, acting on the problem
`next_actionable` selected: mark it in-progress, bump attempts, run the
command loop, then (unless skip-all) evaluate the last result and fold in
the discoveries. -/
def iterationBody (env : LoopEnv) (ex : Executor) (threshold : Rat)
    (g : ProblemGraph) (p0 : Problem) : ProblemGraph :=
  let p1 := { p0 with status := "in_progress", attempts := p0.attempts + 1 }
  let g1 := updateNode g p1.id p1
  let o := runCommands env ex p1 p1.fix_commands none
  let g2 := updateNode g1 o.problem.id o.problem
  if o.skipAll then g2
  else
    match o.lastResult with
    | none => g2
    | some r =>
      let pr := evaluateAndRediagnose threshold (env.llm o.problem r) o.problem r
      let g3 := updateNode g2 pr.1.id pr.1
      integrateNew g3 pr.1 true pr.2

/-- The `while not self.graph.all_done() and iteration < max_iterations`
loop, with `fuel` the remaining iteration budget; returns the final graph
and the number of iterations performed. -/
def runSyncLoop (env : LoopEnv) (ex : Executor) (threshold : Rat) :
    Nat → ProblemGraph → ProblemGraph × Nat
  | 0, g => (g, 0)
  | fuel + 1, g =>
    if g.all_done then (g, 0)
    else
      match g.next_actionable with
      | none => (g, 0)
      | some p =>
        let r := runSyncLoop env ex threshold fuel (iterationBody env ex threshold g p)
        (r.1, r.2 + 1)

/-- `FixOrchestrator.run_sync` (`max_iterations = 50`). -/
def run_sync (env : LoopEnv) (ex : Executor) (threshold : Rat)
    (g : ProblemGraph) : ProblemGraph × Nat :=
  runSyncLoop env ex threshold 50 g

/-! ## Concrete fixtures used by witnesses and counterexamples -/

/-- An executor with the constructor defaults. -/
def exDefault : Executor := {}

/-- A dry-run executor. -/
def exDry : Executor := { dry_run := true }

/-- A danger matcher that flags nothing. -/
def dmNone : String → Option String := fun _ => none

/-- A danger matcher that flags exactly the command `"bad"`. -/
def dmBad : String → Option String :=
  fun c => if c = "bad" then some "why" else none

/-- A machine on which `rpm -q x` reports "installed" and
`sudo dnf install x` completes with exit 0. -/
def envInstallX : ExecEnv :=
  ⟨fun c _ => if c = "rpm -q x &>/dev/null" then some 0 else none,
   fun c _ => if c = "sudo dnf install x" then .completed 0 "done" "" else .spawnFailed "boom"⟩

/-- A machine on which the directory probe `test -d x` reports exit 0. -/
def envDirX : ExecEnv :=
  ⟨fun c _ => if c = "test -d x" then some 0 else none,
   fun _ _ => .spawnFailed "no"⟩

/-! ## C1 — the danger check is first, on the original command, in both
execution modes -/

/-- C1: for every command, executor configuration (including dry-run) and
machine, both `execute_sync` and `execute` evaluate the danger matcher on
the original, un-elevated command text; a match raises
`DangerousCommandError` before anything touches the OS (empty trace, so
before the idempotency probe, before execution, before the dry-run
short-circuit), and with no match on the original command no
`DangerousCommandError` can be raised (even if the elevated text would
have matched). -/
theorem danger_check_unconditional (ex : Executor) (dm : String → Option String)
    (env : ExecEnv) (command : String) (t : Option Nat) (a ci : Bool) :
    (∀ reason, dm command = some reason →
        execute_sync ex dm env command t a ci = ([], .error (.dangerous command reason))
        ∧ execute ex dm env command t a = ([], .error (.dangerous command reason)))
    ∧ (dm command = none →
        (∀ c r, (execute_sync ex dm env command t a ci).2 ≠ .error (.dangerous c r))
        ∧ (∀ c r, (execute ex dm env command t a).2 ≠ .error (.dangerous c r))) := by
  constructor
  · intro reason h
    constructor
    · simp [execute_sync, h]
    · simp [execute, h]
  · intro h
    constructor
    · intro c r
      simp only [execute_sync, h]
      split
      · simp
      · split
        · simp
        · split <;> simp
    · intro c r
      simp only [execute, h]
      split
      · simp
      · split <;> simp

/-- Witness for C1 at a concrete input: the matcher `dmBad` flags `"bad"`,
and both execution modes raise on it with an empty trace. -/
theorem danger_check_unconditional_witness :
    execute_sync exDry dmBad ⟨fun _ _ => some 0, fun _ _ => .completed 0 "" ""⟩
        "bad" none true true = ([], .error (.dangerous "bad" "why"))
    ∧ execute exDry dmBad ⟨fun _ _ => some 0, fun _ _ => .completed 0 "" ""⟩
        "bad" none true = ([], .error (.dangerous "bad" "why")) :=
  (danger_check_unconditional exDry dmBad
      ⟨fun _ _ => some 0, fun _ _ => .completed 0 "" ""⟩ "bad" none true true).1
    "why" rfl

/-! ## C4 — idempotency short-circuit -/

/-- C4 (counterexample to the claim as stated): `"dnf install x"` matches
the `dnf install (.+)` template and its derived probe
`rpm -q x &>/dev/null` reports exit 0, yet under the default
`add_sudo=True` call the probe is never consulted (the anchored template
is matched against the elevated text `sudo dnf install x`) and the
underlying command runs, returning `executed=true`. -/
theorem probe_dead_for_elevated_install :
    check_idempotent "dnf install x" = some "rpm -q x &>/dev/null"
    ∧ envInstallX.runProbe "rpm -q x &>/dev/null" 5 = some 0
    ∧ execute_sync exDefault dmNone envInstallX "dnf install x" none true true
        = (["sudo dnf install x"],
           .ok { command := "sudo dnf install x", returncode := 0, stdout := "done",
                 executed := true }) :=
  ⟨rfl, rfl, rfl⟩

/-- C4 (amended): the idempotency templates are matched against the
command *after* elevation; whenever the elevated command matches a
template and the derived probe exits 0 within its 5-second budget, the
call returns the synthetic already-satisfied result (`executed=false`,
sentinel stdout) and only the probe — never the underlying command — is
handed to the OS. -/
theorem idempotent_skip_on_elevated_match (ex : Executor) (dm : String → Option String)
    (env : ExecEnv) (command : String) (t : Option Nat) (a : Bool) (chk : String)
    (hdm : dm command = none)
    (hchk : check_idempotent (if a then add_sudo command else command) = some chk)
    (hprobe : env.runProbe chk 5 = some 0) :
    execute_sync ex dm env command t a true =
      ([chk], .ok { command := (if a then add_sudo command else command), returncode := 0,
                    stdout := ALREADY_DONE, executed := false }) := by
  simp [execute_sync, hdm, hchk, hprobe]

/-- Witness for C4 (amended) at a concrete input: `"mkdir -p x"` needs no
elevation, its probe `test -d x` reports 0, and the call short-circuits. -/
theorem idempotent_skip_on_elevated_match_witness :
    execute_sync exDefault dmNone envDirX "mkdir -p x" none true true =
      (["test -d x"], .ok { command := "mkdir -p x", returncode := 0,
                            stdout := ALREADY_DONE, executed := false }) := by
  have h := idempotent_skip_on_elevated_match exDefault dmNone envDirX
    "mkdir -p x" none true "test -d x" rfl rfl rfl
  simpa using h

/-! ## C5 — dry-run -/

/-- C5 (counterexample to the claim as stated): in dry-run mode,
`execute_sync "mkdir -p x"` still runs the idempotency probe
(`test -d x` is handed to the OS), and when the probe succeeds the
returned result is the already-satisfied record — its `preview` is empty,
not a preview containing the elevated command. -/
theorem dry_run_runs_probe_counterexample :
    exDry.dry_run = true
    ∧ execute_sync exDry dmNone envDirX "mkdir -p x" none true true
        = (["test -d x"], .ok { command := "mkdir -p x", returncode := 0,
                                stdout := ALREADY_DONE, executed := false }) :=
  ⟨rfl, rfl⟩

/-- C5 (amended): with dry-run set at construction and a command the
danger matcher does not flag, `execute` (async) always returns the
non-executed preview containing the elevated command without touching the
OS; `execute_sync` never executes the command either and never hands the
OS anything beyond the idempotency probe, but it consults that probe
first: the preview result (with the elevated command text) is returned
exactly when no probe short-circuit fires — in particular always when the
elevated command matches no template or when `check_idempotent` is
disabled, and also when the probe fails or errors. -/
theorem dry_run_semantics (ex : Executor) (dm : String → Option String)
    (env : ExecEnv) (command : String) (t : Option Nat) (a ci : Bool)
    (hdry : ex.dry_run = true) (hdm : dm command = none) :
    (execute ex dm env command t a
        = ([], .ok { command := (if a then add_sudo command else command), executed := false,
                     preview := "[DRY-RUN] " ++ (if a then add_sudo command else command) }))
    ∧ (∀ r, (execute_sync ex dm env command t a ci).2 = .ok r →
        r.executed = false
        ∧ (r.preview = "[DRY-RUN] " ++ (if a then add_sudo command else command)
           ∨ r.stdout = ALREADY_DONE))
    ∧ ((execute_sync ex dm env command t a ci).1 = []
        ∨ ∃ chk, check_idempotent (if a then add_sudo command else command) = some chk
            ∧ (execute_sync ex dm env command t a ci).1 = [chk])
    ∧ ((ci = false ∨ check_idempotent (if a then add_sudo command else command) = none) →
        execute_sync ex dm env command t a ci
          = ([], .ok { command := (if a then add_sudo command else command), executed := false,
                       preview := "[DRY-RUN] " ++ (if a then add_sudo command else command) }))
    ∧ (∀ chk, check_idempotent (if a then add_sudo command else command) = some chk →
        ci = true → env.runProbe chk 5 = none →
        execute_sync ex dm env command t a ci
          = ([chk], .ok { command := (if a then add_sudo command else command), executed := false,
                          preview := "[DRY-RUN] " ++ (if a then add_sudo command else command) })) := by
  refine ⟨?_, ?_, ?_, ?_, ?_⟩
  · simp [execute, hdm, hdry]
  · intro r hr
    simp only [execute_sync, hdm] at hr
    by_cases hci : ci = true
    · simp [hci] at hr
      cases hchk : check_idempotent (if a then add_sudo command else command) with
      | none => simp [hchk, hdry] at hr; simp [← hr]
      | some chk =>
        simp [hchk] at hr
        cases hp : env.runProbe chk 5 with
        | none => simp [hp, hdry] at hr; simp [← hr]
        | some rc =>
          simp [hp] at hr
          by_cases hz : rc = 0
          · simp [hz] at hr; simp [← hr]
          · simp [hz, hdry] at hr; simp [← hr]
    · have hci' : ci = false := by revert hci; cases ci <;> simp
      simp [hci', hdry] at hr
      simp [← hr]
  · simp only [execute_sync, hdm]
    by_cases hci : ci = true
    · simp only [hci, if_true]
      cases hchk : check_idempotent (if a then add_sudo command else command) with
      | none => left; simp [hdry]
      | some chk =>
        right
        refine ⟨chk, rfl, ?_⟩
        cases hp : env.runProbe chk 5 with
        | none => simp [hp, hdry]
        | some rc =>
          by_cases hz : rc = 0 <;> simp [hp, hz, hdry]
    · have hci' : ci = false := by revert hci; cases ci <;> simp
      left; simp [hci', hdry]
  · intro hcase
    rcases hcase with hci | hchk
    · simp [execute_sync, hdm, hci, hdry]
    · simp [execute_sync, hdm, hchk, hdry]
  · intro chk hchk hci hp
    simp [execute_sync, hdm, hci, hchk, hp, hdry]

/-- Witness for C5 (amended) at the spec's own scenario: dry-run on
`"dnf install x"` yields `executed=false` with preview
`"[DRY-RUN] sudo dnf install x"` (containing the elevated command) from
both modes, with no probe consulted (the elevated text matches no
template). -/
theorem dry_run_semantics_witness :
    execute exDry dmNone envInstallX "dnf install x" none true
      = ([], .ok { command := "sudo dnf install x", executed := false,
                   preview := "[DRY-RUN] sudo dnf install x" })
    ∧ execute_sync exDry dmNone envInstallX "dnf install x" none true true
      = ([], .ok { command := "sudo dnf install x", executed := false,
                   preview := "[DRY-RUN] sudo dnf install x" }) := by
  have h := dry_run_semantics exDry dmNone envInstallX "dnf install x" none true true rfl rfl
  exact ⟨by simpa using h.1, by simpa using h.2.2.2.1 (Or.inr rfl)⟩

/-! ## C6 — collaborator-failure fallback verdict -/

/-- A problem after its first attempt. -/
def pAttempt1 : Problem :=
  { id := "p", description := "d", severity := "warning", fix_commands := ["x"], attempts := 1 }

/-- The record `run_sync` stores for a timed-out command:
`ExecutionResult(command=cmd, timed_out=True, executed=False)` — its
`returncode` is the dataclass default `0`. -/
def rTimedOut : ExecutionResult := { command := "x", executed := false, timed_out := true }

/-- C6 (counterexample to the claim as stated): on collaborator failure
the fallback is *not* "resolved iff exit code 0": the timeout record has
exit code 0, yet the problem reverts to `pending` (the fallback tests
`result.success`, which also requires `executed`). -/
theorem fallback_zero_exit_not_resolved :
    rTimedOut.returncode = 0
    ∧ (evaluateAndRediagnose (9/10) .failure pAttempt1 rTimedOut).1.status = "pending" :=
  ⟨rfl, rfl⟩

/-- C6 (amended): when the collaborator verdict call fails, the problem is
given a heuristic verdict from the execution record alone — `resolved` iff
the command was actually executed with exit code 0 (`result.success`);
otherwise `failed` exactly when attempts have reached `max_attempts` and
`pending` (retry) otherwise — and no new problems are reported, so the
loop continues. -/
theorem fallback_verdict_by_success (threshold : Rat) (p : Problem) (r : ExecutionResult) :
    ((evaluateAndRediagnose threshold .failure p r).1.status = "resolved"
        ↔ (r.executed = true ∧ r.returncode = 0))
    ∧ ((evaluateAndRediagnose threshold .failure p r).1.status = "failed"
        ↔ (¬(r.executed = true ∧ r.returncode = 0) ∧ p.max_attempts ≤ p.attempts))
    ∧ ((evaluateAndRediagnose threshold .failure p r).1.status = "pending"
        ↔ (¬(r.executed = true ∧ r.returncode = 0) ∧ p.attempts < p.max_attempts))
    ∧ (evaluateAndRediagnose threshold .failure p r).2 = [] := by
  have hsucc : (r.success = true) ↔ (r.executed = true ∧ r.returncode = 0) := by
    simp [ExecutionResult.success]
  by_cases hs : r.success = true
  · simp [evaluateAndRediagnose, hs, hsucc.mp hs]
  · have hns : ¬(r.executed = true ∧ r.returncode = 0) := fun hc => hs (hsucc.mpr hc)
    by_cases hm : p.max_attempts ≤ p.attempts
    · simp [evaluateAndRediagnose, hs, hns, hm]
    · simp [evaluateAndRediagnose, hs, hns, hm, Nat.lt_of_not_le hm]

/-- Witness for C6 (amended) at a concrete input: the fallback on the
timeout record (unexecuted, exit code 0) yields `pending` with no new
problems. -/
theorem fallback_verdict_by_success_witness :
    (evaluateAndRediagnose (9/10) .failure pAttempt1 rTimedOut).1.status = "pending"
    ∧ (evaluateAndRediagnose (9/10) .failure pAttempt1 rTimedOut).2 = [] :=
  ⟨(fallback_verdict_by_success (9/10) pAttempt1 rTimedOut).2.2.1.mpr
      ⟨by simp [rTimedOut], by norm_num [pAttempt1]⟩,
   (fallback_verdict_by_success (9/10) pAttempt1 rTimedOut).2.2.2⟩

/-! ## C7 — a failed/timed-out command stops the rest of the list -/

/-- A machine where `cmda` cannot be spawned and everything else exits 0. -/
def envSpawnFail : LoopEnv :=
  ⟨fun _ _ => .approve, dmNone,
   ⟨fun _ _ => none, fun c _ => if c = "cmda" then .spawnFailed "boom" else .completed 0 "" ""⟩,
   fun _ _ => .failure⟩

/-- A problem with two fix commands. -/
def pTwoCmds : Problem :=
  { id := "p", description := "d", severity := "warning", fix_commands := ["cmda", "cmdb"] }

/-- A machine where `okc` exits 0 and every other command exits 1. -/
def envOkBad : LoopEnv :=
  ⟨fun _ _ => .approve, dmNone,
   ⟨fun _ _ => none, fun c _ => if c = "okc" then .completed 0 "" "" else .completed 1 "" ""⟩,
   fun _ _ => .failure⟩

/-- C7 (counterexample to the claim as stated): a process-spawn failure
yields `executed=false` (a non-success result), but the command loop's
stop test `not success and executed` is false for it, so the next command
of the list *is* attempted. -/
theorem spawn_failure_does_not_stop_list :
    (execute_sync exDefault dmNone envSpawnFail.exec "cmda").2
        = .ok { command := "cmda", executed := false, error := some "boom" }
    ∧ (runCommands envSpawnFail exDefault pTwoCmds ["cmda", "cmdb"] none).attempted
        = ["cmda", "cmdb"] :=
  ⟨rfl, rfl⟩

/-- C7 (amended): within one iteration's walk of `fix_commands`, once an
approved command either returns an executed result with non-zero exit or
raises the timeout error, no later command of the list reaches the
executor (the attempted commands are exactly the approved prefix up to and
including the stopping command). A spawn failure, by contrast, produces a
non-executed result and does not stop the walk. -/
theorem executed_failure_or_timeout_stops_list (env : LoopEnv) (ex : Executor)
    (p : Problem) (pre : List String) (c : String) (post : List String)
    (last : Option ExecutionResult)
    (hpre : ∀ x ∈ pre, env.confirm p x = .approve
        ∧ ∃ r, (execute_sync ex env.is_dangerous env.exec x).2 = .ok r
            ∧ (!r.success && r.executed) = false)
    (hc : env.confirm p c = .approve)
    (hstop : (∃ r, (execute_sync ex env.is_dangerous env.exec c).2 = .ok r
                ∧ (!r.success && r.executed) = true)
        ∨ (∃ c' t', (execute_sync ex env.is_dangerous env.exec c).2 = .error (.timeout c' t'))) :
    (runCommands env ex p (pre ++ c :: post) last).attempted = pre ++ [c] := by
  induction pre generalizing last with
  | nil =>
    rcases hstop with ⟨r, hr, hbr⟩ | ⟨c', t', hr⟩
    · simp [runCommands, hc, hr, hbr]
    · simp [runCommands, hc, hr]
  | cons x pre ih =>
    obtain ⟨hx, r, hr, hcont⟩ := hpre x (by simp)
    have htail := fun y hy => hpre y (List.mem_cons_of_mem x hy)
    simp [runCommands, hx, hr, hcont, ih (some r) htail]

/-- Witness for C7 (amended) at a concrete input: `okc` succeeds, `badc`
exits 1, and `neverc` is never attempted. -/
theorem executed_failure_or_timeout_stops_list_witness :
    (runCommands envOkBad exDefault pTwoCmds ["okc", "badc", "neverc"] none).attempted
      = ["okc", "badc"] := by
  have h := executed_failure_or_timeout_stops_list envOkBad exDefault pTwoCmds
    ["okc"] "badc" ["neverc"] none
    (by
      intro x hx
      simp only [List.mem_singleton] at hx
      subst hx
      exact ⟨rfl, ⟨{ command := "okc", returncode := 0 }, rfl, rfl⟩⟩)
    rfl
    (Or.inl ⟨{ command := "badc", returncode := 1 }, rfl, rfl⟩)
  simpa using h

/-! ## C8 — dangerous command fails the problem -/

theorem findActionable_pending (g : ProblemGraph) :
    ∀ l p, findActionable g l = some p →
      p.status = "pending" ∧ p.attempts < p.max_attempts := by
  intro l
  induction l with
  | nil => intro p h; simp [findActionable] at h
  | cons pid rest ih =>
    intro p h
    simp only [findActionable] at h
    cases hl : g.nodes.lookup pid with
    | none =>
      rw [hl] at h
      exact ih p h
    | some q =>
      rw [hl] at h
      have h' : (if (q.is_actionable && depsResolved g q) = true then some q
          else findActionable g rest) = some p := h
      by_cases hq : (q.is_actionable && depsResolved g q) = true
      · rw [if_pos hq] at h'
        cases h'
        simp only [Problem.is_actionable, Bool.and_eq_true, beq_iff_eq,
          decide_eq_true_eq] at hq
        exact ⟨hq.1.1, hq.1.2⟩
      · rw [if_neg hq] at h'
        exact ih p h'

/-- `next_actionable` only ever returns a `pending` problem (with attempts
below the ceiling). -/
theorem next_actionable_pending (g : ProblemGraph) (p : Problem)
    (h : g.next_actionable = some p) :
    p.status = "pending" ∧ p.attempts < p.max_attempts :=
  findActionable_pending g g.execution_order p h

theorem lookup_updateNode_self (g : ProblemGraph) (pid : String) (p : Problem)
    (h : (g.nodes.lookup pid).isSome) :
    (updateNode g pid p).nodes.lookup pid = some p := by
  obtain ⟨ns, _⟩ := g
  simp only [updateNode]
  induction ns with
  | nil => simp [List.lookup] at h
  | cons kv rest ih =>
    by_cases hk : kv.1 = pid
    · simp [updateNode.go, hk, List.lookup]
    · have hbeq : (pid == kv.1) = false := by
        simp; exact fun hc => hk hc.symm
      simp only [updateNode.go, if_neg hk]
      rw [List.lookup] at h ⊢
      simp only [hbeq] at h ⊢
      exact ih h

theorem lookup_updateNode_isSome (g : ProblemGraph) (pid : String) (p : Problem)
    (h : (g.nodes.lookup pid).isSome) :
    ((updateNode g pid p).nodes.lookup pid).isSome := by
  rw [lookup_updateNode_self g pid p h]
  rfl

/-- A problem whose first fix command is the dangerous `"bad"`. -/
def pBadFirst : Problem :=
  { id := "p", description := "d", severity := "warning", fix_commands := ["bad"] }

/-- A single-node graph holding `pBadFirst`. -/
def gBadFirst : ProblemGraph := ⟨[("p", pBadFirst)], ["p"]⟩

/-- A session whose oracles approve everything, flag `"bad"` as dangerous,
execute everything else with exit 0, and whose collaborator answers
verdict `"failed"`. -/
def envDangerEnv : LoopEnv :=
  ⟨fun _ _ => .approve, dmBad,
   ⟨fun _ _ => none, fun c _ => if c = "bad" then .spawnFailed "never" else .completed 0 "" ""⟩,
   fun _ _ => .verdictReply "failed" (1/2) []⟩

/-- A problem whose *second* fix command is the dangerous one. -/
def pGoodBad : Problem :=
  { id := "p", description := "d", severity := "warning", fix_commands := ["good", "bad"] }

/-- A single-node graph holding `pGoodBad`. -/
def gGoodBad : ProblemGraph := ⟨[("p", pGoodBad)], ["p"]⟩

/-- C8 (counterexample to the claim as stated): the danger check trips on
the second command `"bad"` after `"good"` already produced a result; the
verdict step then overwrites the `failed` status using that earlier
result, the iteration ends with the problem `pending`, and
`next_actionable` selects the very same problem again — a dangerous
command *can* be retried. -/
theorem dangerous_after_result_not_failed :
    envDangerEnv.is_dangerous "bad" = some "why"
    ∧ (iterationBody envDangerEnv exDefault (9/10) gGoodBad pGoodBad).nodes.lookup "p"
        = some { pGoodBad with status := "pending", attempts := 1 }
    ∧ (iterationBody envDangerEnv exDefault (9/10) gGoodBad pGoodBad).next_actionable
        = some { pGoodBad with status := "pending", attempts := 1 } :=
  ⟨rfl, rfl, rfl⟩

/-- C8 (amended): when the danger check trips on the first command the
loop attempts for a problem (so no earlier command of that iteration
recorded a result), the problem ends the iteration with status `failed`
(the verdict step is skipped because `last_result` is `None`); and since
`next_actionable` only ever returns `pending` problems, a problem left
`failed` is never selected again. If an earlier command of the same
iteration did record a result, the verdict step may overwrite `failed`
and the problem can be retried. -/
theorem danger_on_first_command_fails_problem (env : LoopEnv) (ex : Executor)
    (threshold : Rat) (g : ProblemGraph) (p : Problem) (cmd : String)
    (rest : List String) (reason : String)
    (hfix : p.fix_commands = cmd :: rest)
    (hconf : env.confirm { p with status := "in_progress", attempts := p.attempts + 1 } cmd
        = .approve)
    (hdm : env.is_dangerous cmd = some reason)
    (hmem : (g.nodes.lookup p.id).isSome) :
    ((iterationBody env ex threshold g p).nodes.lookup p.id
        = some { p with status := "failed", attempts := p.attempts + 1 })
    ∧ (∀ g' q, ProblemGraph.next_actionable g' = some q → q.status = "pending") := by
  constructor
  · have hexec : (execute_sync ex env.is_dangerous env.exec cmd).2
        = .error (.dangerous cmd reason) := by
      simp [execute_sync, hdm]
    simp only [hfix] at hconf
    have h1 := lookup_updateNode_isSome g p.id { p with fix_commands := cmd :: rest, status := "in_progress", attempts := p.attempts + 1 } hmem
    have h2 := lookup_updateNode_self (updateNode g p.id { p with fix_commands := cmd :: rest, status := "in_progress", attempts := p.attempts + 1 }) p.id { p with fix_commands := cmd :: rest, status := "failed", attempts := p.attempts + 1 } h1
    simpa [iterationBody, hfix, runCommands, hconf, hexec] using h2
  · intro g' q hq
    exact (next_actionable_pending g' q hq).1

/-- Witness for C8 (amended) at a concrete input: the dangerous command is
first, the iteration leaves the problem `failed`, and on a concrete
pending graph `next_actionable`'s pick is indeed `pending`. -/
theorem danger_on_first_command_fails_problem_witness :
    (iterationBody envDangerEnv exDefault (9/10) gBadFirst pBadFirst).nodes.lookup "p"
        = some { pBadFirst with status := "failed", attempts := 1 }
    ∧ pTwoCmds.status = "pending" := by
  have h := danger_on_first_command_fails_problem envDangerEnv exDefault (9/10)
    gBadFirst pBadFirst "bad" [] "why" rfl rfl rfl rfl
  exact ⟨h.1, h.2 ⟨[("p", pTwoCmds)], ["p"]⟩ pTwoCmds rfl⟩

/-! ## C9 — how the main loop can terminate -/

/-- The loop of `run_sync` ends in one of exactly three ways: the final
graph is all-done, `next_actionable` found nothing, or the iteration
budget was spent. -/
theorem runSyncLoop_cases (env : LoopEnv) (ex : Executor) (threshold : Rat) :
    ∀ fuel g,
      (runSyncLoop env ex threshold fuel g).1.all_done = true
      ∨ (runSyncLoop env ex threshold fuel g).1.next_actionable = none
      ∨ (runSyncLoop env ex threshold fuel g).2 = fuel := by
  intro fuel
  induction fuel with
  | zero => intro g; right; right; rfl
  | succ n ih =>
    intro g
    by_cases hd : g.all_done = true
    · left; simp [runSyncLoop, hd]
    · have hd' : g.all_done = false := by revert hd; cases g.all_done <;> simp
      cases hn : g.next_actionable with
      | none => right; left; simp [runSyncLoop, hd', hn]
      | some p =>
        have hred : runSyncLoop env ex threshold (n + 1) g
            = ((runSyncLoop env ex threshold n (iterationBody env ex threshold g p)).1,
               (runSyncLoop env ex threshold n (iterationBody env ex threshold g p)).2 + 1) := by
          simp [runSyncLoop, hd', hn]
        rcases ih (iterationBody env ex threshold g p) with h | h | h
        · left; rw [hred]; exact h
        · right; left; rw [hred]; exact h
        · right; right; rw [hred]; simpa using h

/-- C9: `FixOrchestrator.run_sync` consults no session deadline — its loop
terminates only because the graph is all-done, because `next_actionable`
returned none, or because the 50-iteration cap was hit. (The spec's
deadline check per iteration does not exist in this loop; `session_timeout`
is only honoured, via an OS alarm signal, by the separate agent loops.) -/
theorem run_sync_exits_only_by_done_stall_or_cap (env : LoopEnv) (ex : Executor)
    (threshold : Rat) (g : ProblemGraph) :
    (run_sync env ex threshold g).1.all_done = true
    ∨ (run_sync env ex threshold g).1.next_actionable = none
    ∨ (run_sync env ex threshold g).2 = 50 :=
  runSyncLoop_cases env ex threshold 50 g

/-! ## C10 — the out-of-band `"skipped"` status -/

theorem lookup_mem_pair :
    ∀ (l : List (String × Problem)) (k : String) (p : Problem),
      l.lookup k = some p → (k, p) ∈ l := by
  intro l
  induction l with
  | nil => intro k p h; simp [List.lookup] at h
  | cons kv rest ih =>
    intro k p h
    rw [List.lookup] at h
    by_cases hk : k = kv.1
    · have hbeq : (k == kv.1) = true := by simp [hk]
      simp only [hbeq] at h
      cases h
      rw [hk]
      exact List.mem_cons_self _ _
    · have hbeq : (k == kv.1) = false := by simp [hk]
      simp only [hbeq] at h
      exact List.mem_cons_of_mem kv (ih k p h)

/-- A graph with a skipped node cannot be all-done. -/
theorem all_done_false_of_skipped (g : ProblemGraph) (pid : String) (p : Problem)
    (hl : g.nodes.lookup pid = some p) (hs : p.status = "skipped") :
    g.all_done = false := by
  by_contra hcon
  have hall : g.all_done = true := by revert hcon; cases g.all_done <;> simp
  have hmem := lookup_mem_pair g.nodes pid p hl
  have := (List.all_eq_true.mp hall) (pid, p) hmem
  rw [hs] at this
  simp [ALL_DONE_STATUSES] at this

/-- A problem declined mid-list after an earlier command produced a
result: the collaborator answers "resolved" for it. -/
def pDeclined : Problem :=
  { id := "p", description := "d", severity := "warning", fix_commands := ["c1", "c2"] }

/-- Single-node graph holding `pDeclined`. -/
def gDeclined : ProblemGraph := ⟨[("p", pDeclined)], ["p"]⟩

/-- Session oracles: approve `c1` (exits 0), decline `c2`, collaborator
verdict `"resolved"`. -/
def envDeclineAfter : LoopEnv :=
  ⟨fun _ c => if c = "c2" then .decline else .approve,
   dmNone,
   ⟨fun _ _ => none, fun c _ => if c = "c1" then .completed 0 "" "" else .spawnFailed "x"⟩,
   fun _ _ => .verdictReply "resolved" 1 []⟩

/-- C10 (counterexample to the claim as stated): the loop does set the
problem's status to `"skipped"` when `c2` is declined — but because `c1`
already recorded a result, the verdict step afterwards overwrites it to
`"resolved"`, the graph never retains a skipped node, and the session ends
via `all_done` after one iteration, contradicting "such a session ends
only via next_actionable returning none or the iteration cap, never via
all_done". -/
theorem skipped_overwritten_session_ends_all_done :
    (runCommands envDeclineAfter exDefault
        { pDeclined with status := "in_progress", attempts := 1 } ["c1", "c2"] none).problem.status
      = "skipped"
    ∧ (run_sync envDeclineAfter exDefault (9/10) gDeclined).1.nodes.lookup "p"
        = some { pDeclined with status := "resolved", attempts := 1 }
    ∧ (run_sync envDeclineAfter exDefault (9/10) gDeclined).1.all_done = true
    ∧ (run_sync envDeclineAfter exDefault (9/10) gDeclined).2 = 1 :=
  ⟨rfl, rfl, rfl, rfl⟩

/-- C10 (amended): a decline or skip-all answer makes the command loop set
the problem's status to `"skipped"` — a value outside the declared
`ProblemStatus` literal and outside `all_done`'s terminal set. While a
graph holds a node with status `"skipped"`, `all_done` is false and
`next_actionable` never returns that node, and a session whose *final*
graph holds a skipped node can only have ended by `next_actionable`
returning none or by the iteration cap. (The skipped status persists to
the end of the iteration only when no earlier command of that problem
recorded a result — e.g. always for skip-all, which bypasses the verdict
step; a decline after a recorded result is overwritten by the verdict
step, see the counterexample.) -/
theorem skipped_status_semantics :
    (∀ env ex p cmd rest last, (env : LoopEnv).confirm p cmd = .decline →
        ((runCommands env ex p (cmd :: rest) last).problem.status = "skipped"
          ∧ (runCommands env ex p (cmd :: rest) last).skipAll = false))
    ∧ (∀ env ex p cmd rest last, (env : LoopEnv).confirm p cmd = .skipAll →
        ((runCommands env ex p (cmd :: rest) last).problem.status = "skipped"
          ∧ (runCommands env ex p (cmd :: rest) last).skipAll = true))
    ∧ ("skipped" ∉ PROBLEM_STATUSES ∧ "skipped" ∉ ALL_DONE_STATUSES)
    ∧ (∀ g pid p, (g : ProblemGraph).nodes.lookup pid = some p → p.status = "skipped" →
        g.all_done = false)
    ∧ (∀ g q, (g : ProblemGraph).next_actionable = some q → q.status ≠ "skipped")
    ∧ (∀ env ex threshold g pid p,
        (run_sync env ex threshold g).1.nodes.lookup pid = some p →
        p.status = "skipped" →
        ((run_sync env ex threshold g).1.all_done = false
          ∧ ((run_sync env ex threshold g).1.next_actionable = none
              ∨ (run_sync env ex threshold g).2 = 50))) := by
  refine ⟨?_, ?_, ?_, ?_, ?_, ?_⟩
  · intro env ex p cmd rest last h
    simp [runCommands, h]
  · intro env ex p cmd rest last h
    simp [runCommands, h]
  · exact ⟨by decide, by decide⟩
  · intro g pid p hl hs
    exact all_done_false_of_skipped g pid p hl hs
  · intro g q hq
    rw [(next_actionable_pending g q hq).1]
    decide
  · intro env ex threshold g pid p hl hs
    simp only [run_sync] at hl ⊢
    have hfalse := all_done_false_of_skipped _ pid p hl hs
    refine ⟨hfalse, ?_⟩
    rcases runSyncLoop_cases env ex threshold 50 g with h | h | h
    · rw [hfalse] at h; cases h
    · exact Or.inl h
    · exact Or.inr h

/-- A graph holding one skipped node. -/
def gSkip : ProblemGraph := ⟨[("p", { pDeclined with status := "skipped" })], ["p"]⟩

/-- Session oracles that decline every command. -/
def envAllDecline : LoopEnv :=
  ⟨fun _ _ => .decline, dmNone, ⟨fun _ _ => none, fun _ _ => .completed 0 "" ""⟩,
   fun _ _ => .failure⟩

/-- Witness for C10 (amended) at concrete inputs: a declined command sets
`"skipped"`, and a concrete graph holding a skipped node is not
all-done. -/
theorem skipped_status_semantics_witness :
    (runCommands envAllDecline exDefault pDeclined ["c1", "c2"] none).problem.status = "skipped"
    ∧ gSkip.all_done = false :=
  ⟨(skipped_status_semantics.1 envAllDecline exDefault pDeclined "c1" ["c2"] none rfl).1,
   skipped_status_semantics.2.2.2.1 gSkip "p" { pDeclined with status := "skipped" } rfl rfl⟩

/-! ## C2 — specification of `next_actionable` -/

/-- The spec's selection predicate: status pending, attempts below the
ceiling, and every `caused_by` entry that exists in the graph resolved. -/
def Selectable (g : ProblemGraph) (q : Problem) : Prop :=
  q.status = "pending" ∧ q.attempts < q.max_attempts
    ∧ ∀ dep ∈ q.caused_by, ∀ s, g.nodes.lookup dep = some s → s.status = "resolved"

/-- The Boolean test of the source coincides with the spec predicate. -/
theorem selectable_iff (g : ProblemGraph) (q : Problem) :
    (q.is_actionable && depsResolved g q) = true ↔ Selectable g q := by
  simp only [Bool.and_eq_true, Problem.is_actionable, beq_iff_eq, decide_eq_true_eq,
    depsResolved, List.all_eq_true, Selectable]
  constructor
  · rintro ⟨⟨h1, h2⟩, h3⟩
    refine ⟨h1, h2, ?_⟩
    intro dep hdep s hs
    have hd := h3 dep hdep
    rw [hs] at hd
    simpa using hd
  · rintro ⟨h1, h2, h3⟩
    refine ⟨⟨h1, h2⟩, ?_⟩
    intro dep hdep
    cases hs : g.nodes.lookup dep with
    | none => simp
    | some s =>
      have := h3 dep hdep s hs
      simp [this]

theorem findActionable_spec (g : ProblemGraph) :
    ∀ l : List String,
      (∀ p, findActionable g l = some p →
        Selectable g p
        ∧ ∃ pre pid post, l = pre ++ pid :: post
            ∧ g.nodes.lookup pid = some p
            ∧ ∀ pid' ∈ pre, ∀ q, g.nodes.lookup pid' = some q → ¬ Selectable g q)
      ∧ (findActionable g l = none
          ↔ ∀ pid ∈ l, ∀ q, g.nodes.lookup pid = some q → ¬ Selectable g q) := by
  intro l
  induction l with
  | nil =>
    constructor
    · intro p h; simp [findActionable] at h
    · simp [findActionable]
  | cons pid rest ih =>
    cases hl : g.nodes.lookup pid with
    | none =>
      have hred : findActionable g (pid :: rest) = findActionable g rest := by
        rw [findActionable, hl]
      constructor
      · intro p h
        rw [hred] at h
        obtain ⟨hsel, pre, pid', post, hdec, hlk, hpre⟩ := ih.1 p h
        refine ⟨hsel, pid :: pre, pid', post, by simp [hdec], hlk, ?_⟩
        intro x hx q hq
        rcases List.mem_cons.mp hx with hx | hx
        · subst hx; rw [hl] at hq; cases hq
        · exact hpre x hx q hq
      · rw [hred, ih.2]
        constructor
        · intro h x hx q hq
          rcases List.mem_cons.mp hx with hx | hx
          · subst hx; rw [hl] at hq; cases hq
          · exact h x hx q hq
        · intro h x hx q hq
          exact h x (List.mem_cons_of_mem pid hx) q hq
    | some q =>
      by_cases hsel : (q.is_actionable && depsResolved g q) = true
      · have hred : findActionable g (pid :: rest) = some q := by
          rw [findActionable, hl]
          exact if_pos hsel
        constructor
        · intro p h
          rw [hred] at h
          cases h
          exact ⟨(selectable_iff g q).mp hsel, [], pid, rest, rfl, hl, by simp⟩
        · rw [hred]
          constructor
          · intro h; cases h
          · intro h
            exact absurd ((selectable_iff g q).mp hsel)
              (h pid (by simp) q hl)
      · have hred : findActionable g (pid :: rest) = findActionable g rest := by
          rw [findActionable, hl]
          exact if_neg hsel
        have hnot : ¬ Selectable g q := fun hc => hsel ((selectable_iff g q).mpr hc)
        constructor
        · intro p h
          rw [hred] at h
          obtain ⟨hs, pre, pid', post, hdec, hlk, hpre⟩ := ih.1 p h
          refine ⟨hs, pid :: pre, pid', post, by simp [hdec], hlk, ?_⟩
          intro x hx q' hq'
          rcases List.mem_cons.mp hx with hx | hx
          · subst hx; rw [hl] at hq'; cases hq'; exact hnot
          · exact hpre x hx q' hq'
        · rw [hred, ih.2]
          constructor
          · intro h x hx q' hq'
            rcases List.mem_cons.mp hx with hx | hx
            · subst hx; rw [hl] at hq'; cases hq'; exact hnot
            · exact h x hx q' hq'
          · intro h x hx q' hq'
            exact h x (List.mem_cons_of_mem pid hx) q' hq'

/-- C2: on a well-formed graph state (every id in `execution_order` is a
node key, as the class maintains), `next_actionable` returns precisely the
first node of `execution_order` that is pending, below its attempt
ceiling, and has every in-graph `caused_by` entry resolved; it returns
none exactly when no node of the order qualifies — in particular it never
returns a node with a not-yet-resolved dependency present in the graph. -/
theorem next_actionable_spec (g : ProblemGraph)
    (hwf : ∀ pid ∈ g.execution_order, (g.nodes.lookup pid).isSome) :
    (∀ p, g.next_actionable = some p →
        Selectable g p
        ∧ ∃ pre pid post, g.execution_order = pre ++ pid :: post
            ∧ g.nodes.lookup pid = some p
            ∧ ∀ pid' ∈ pre, ∀ q, g.nodes.lookup pid' = some q → ¬ Selectable g q)
    ∧ (g.next_actionable = none
        ↔ ∀ pid ∈ g.execution_order, ∀ q, g.nodes.lookup pid = some q →
            ¬ Selectable g q) :=
  findActionable_spec g g.execution_order

/-- A single-node graph whose problem is freshly pending. -/
def gPending : ProblemGraph := ⟨[("p", pTwoCmds)], ["p"]⟩

/-- Witness for C2 at a concrete input: on `gPending`, the node returned
by `next_actionable` satisfies the selection predicate. -/
theorem next_actionable_spec_witness : Selectable gPending pTwoCmds :=
  ((next_actionable_spec gPending (by decide)).1 pTwoCmds rfl).1

/-! ## C3 — `execution_order` is a permutation of the node ids -/

section AssocLemmas

variable {α : Type}

theorem lookup_isSome_iff_memKeys (l : List (String × α)) (c : String) :
    (l.lookup c).isSome ↔ c ∈ keysOf l := by
  induction l with
  | nil => simp [List.lookup, keysOf]
  | cons kv rest ih =>
    rw [List.lookup]
    by_cases hk : c = kv.1
    · have hbeq : (c == kv.1) = true := by simp [hk]
      simp [hbeq, keysOf, hk]
    · have hbeq : (c == kv.1) = false := by simp [hk]
      simp only [hbeq, keysOf, List.map_cons, List.mem_cons]
      rw [ih]
      simp [keysOf, hk]

theorem lookup_mem (l : List (String × α)) (k : String) (v : α)
    (h : l.lookup k = some v) : (k, v) ∈ l := by
  induction l with
  | nil => simp [List.lookup] at h
  | cons kv rest ih =>
    rw [List.lookup] at h
    by_cases hk : k = kv.1
    · have hbeq : (k == kv.1) = true := by simp [hk]
      simp only [hbeq] at h
      cases h
      rw [hk]
      exact List.mem_cons_self _ _
    · have hbeq : (k == kv.1) = false := by simp [hk]
      simp only [hbeq] at h
      exact List.mem_cons_of_mem kv (ih h)

end AssocLemmas

theorem setFirst_keysOf (l : List (String × Int)) (k : String) (v : Int) :
    keysOf (setFirst l k v) = keysOf l := by
  induction l with
  | nil => simp [setFirst]
  | cons kv rest ih =>
    by_cases hk : kv.1 = k
    · simp [setFirst, hk, keysOf]
    · simp [setFirst, hk, keysOf]
      simpa [keysOf] using ih

theorem lookup_setFirst_self (l : List (String × Int)) (k : String) (d v : Int)
    (h : l.lookup k = some d) : (setFirst l k v).lookup k = some v := by
  induction l with
  | nil => simp [List.lookup] at h
  | cons kv rest ih =>
    rw [List.lookup] at h
    by_cases hk : kv.1 = k
    · simp [setFirst, hk, List.lookup]
    · have hbeq : (k == kv.1) = false := by simp; exact fun hc => hk hc.symm
      simp only [hbeq] at h
      simp only [setFirst, if_neg hk, List.lookup, hbeq]
      exact ih h

theorem lookup_setFirst_ne (l : List (String × Int)) (k c : String) (v : Int)
    (h : c ≠ k) : (setFirst l k v).lookup c = l.lookup c := by
  induction l with
  | nil => simp [setFirst]
  | cons kv rest ih =>
    by_cases hk : kv.1 = k
    · have hbeq : (c == k) = false := by simp [h]
      simp [setFirst, hk, List.lookup, hbeq]
    · simp only [setFirst, if_neg hk, List.lookup]
      by_cases hc : c = kv.1
      · have hbeq : (c == kv.1) = true := by simp [hc]
        simp [hbeq]
      · have hbeq : (c == kv.1) = false := by simp [hc]
        simp only [hbeq]
        exact ih

theorem lookup_setFirst_isSome (l : List (String × Int)) (k c : String) (v : Int) :
    ((setFirst l k v).lookup c).isSome ↔ (l.lookup c).isSome := by
  rw [lookup_isSome_iff_memKeys, lookup_isSome_iff_memKeys, setFirst_keysOf]

theorem bumpFirst_keysOf_of_mem (l : List (String × Int)) (k : String)
    (h : k ∈ keysOf l) : keysOf (bumpFirst l k) = keysOf l := by
  induction l with
  | nil => simp [keysOf] at h
  | cons kv rest ih =>
    by_cases hk : kv.1 = k
    · simp [bumpFirst, hk, keysOf]
    · simp only [keysOf, List.map_cons, List.mem_cons] at h
      rcases h with h | h

      · exact absurd h.symm hk
      · simp only [bumpFirst, if_neg hk, keysOf, List.map_cons]
        have hr := ih (by simpa [keysOf] using h)
        simp only [keysOf] at hr
        rw [hr]

theorem bumpFirst_nonneg (l : List (String × Int)) (k : String)
    (h : ∀ kv ∈ l, 0 ≤ kv.2) : ∀ kv ∈ bumpFirst l k, 0 ≤ kv.2 := by
  induction l with
  | nil =>
    intro kv hkv
    simp [bumpFirst] at hkv
    rw [hkv]
    norm_num
  | cons kv0 rest ih =>
    intro kv hkv
    by_cases hk : kv0.1 = k
    · simp only [bumpFirst, if_pos hk, List.mem_cons] at hkv
      rcases hkv with hkv | hkv
      · have h0 := h kv0 (List.mem_cons_self _ _)
        rw [hkv]
        simp
        omega
      · exact h kv (List.mem_cons_of_mem kv0 hkv)
    · simp only [bumpFirst, if_neg hk, List.mem_cons] at hkv
      rcases hkv with hkv | hkv
      · rw [hkv]; exact h kv0 (List.mem_cons_self _ _)
      · exact ih (fun x hx => h x (List.mem_cons_of_mem kv0 hx)) kv hkv

theorem bumpFor_keysOf (nodes : List (String × Problem)) (k : String) :
    ∀ (deps : List String) (deg : List (String × Int)), k ∈ keysOf deg →
      keysOf (bumpFor nodes k deg deps) = keysOf deg := by
  intro deps
  induction deps with
  | nil => intro deg _; simp [bumpFor]
  | cons dep deps ih =>
    intro deg hk
    rw [bumpFor, List.foldl]
    by_cases hc : (nodes.lookup dep).isSome
    · simp only [if_pos hc]
      have hkeys := bumpFirst_keysOf_of_mem deg k hk
      have := ih (bumpFirst deg k) (by rw [hkeys]; exact hk)
      rw [bumpFor] at this
      rw [this, hkeys]
    · simp only [if_neg hc]
      exact ih deg hk

theorem bumpFor_nonneg (nodes : List (String × Problem)) (k : String) :
    ∀ (deps : List String) (deg : List (String × Int)), (∀ kv ∈ deg, 0 ≤ kv.2) →
      ∀ kv ∈ bumpFor nodes k deg deps, 0 ≤ kv.2 := by
  intro deps
  induction deps with
  | nil => intro deg h; simpa [bumpFor] using h
  | cons dep deps ih =>
    intro deg h
    rw [bumpFor, List.foldl]
    by_cases hc : (nodes.lookup dep).isSome
    · simp only [if_pos hc]
      exact ih (bumpFirst deg k) (bumpFirst_nonneg deg k h)
    · simp only [if_neg hc]
      exact ih deg h

theorem initialDeg_foldl_keysOf (nodes : List (String × Problem)) :
    ∀ (todo : List (String × Problem)) (acc : List (String × Int)),
      (∀ kv ∈ todo, kv.1 ∈ keysOf acc) →
      keysOf (todo.foldl (fun deg kv => bumpFor nodes kv.1 deg kv.2.caused_by) acc)
        = keysOf acc := by
  intro todo
  induction todo with
  | nil => intro acc _; simp
  | cons kv todo ih =>
    intro acc h
    rw [List.foldl]
    have hk : kv.1 ∈ keysOf acc := h kv (List.mem_cons_self _ _)
    have hkeys := bumpFor_keysOf nodes kv.1 kv.2.caused_by acc hk
    have := ih (bumpFor nodes kv.1 acc kv.2.caused_by)
      (fun x hx => by rw [hkeys]; exact h x (List.mem_cons_of_mem kv hx))
    rw [this, hkeys]

theorem initialDeg_keysOf (nodes : List (String × Problem)) :
    keysOf (initialDeg nodes) = keysOf nodes := by
  rw [initialDeg]
  have hbase : keysOf (nodes.map (fun kv => (kv.1, (0 : Int)))) = keysOf nodes := by
    simp [keysOf]
  rw [initialDeg_foldl_keysOf nodes nodes _ ?_, hbase]
  intro kv hkv
  rw [hbase]
  exact List.mem_map_of_mem (fun kv => kv.1) hkv

theorem initialDeg_nonneg (nodes : List (String × Problem)) :
    ∀ kv ∈ initialDeg nodes, 0 ≤ kv.2 := by
  rw [initialDeg]
  have haux : ∀ (todo : List (String × Problem)) (acc : List (String × Int)),
      (∀ kv ∈ acc, 0 ≤ kv.2) →
      ∀ kv ∈ todo.foldl (fun deg kv => bumpFor nodes kv.1 deg kv.2.caused_by) acc,
        0 ≤ kv.2 := by
    intro todo
    induction todo with
    | nil => intro acc h; simpa using h
    | cons kv todo ih =>
      intro acc h
      rw [List.foldl]
      exact ih _ (bumpFor_nonneg nodes kv.1 kv.2.caused_by acc h)
  refine haux nodes _ ?_
  intro kv hkv
  simp only [List.mem_map] at hkv
  obtain ⟨x, _, hx⟩ := hkv
  rw [← hx]

/-- Invariant transfer through one `decChildren` pass. `S` is the set of
ids already popped or queued: if every tracked id has degree at most 0 and
every other id degree at least 1, then after the pass the same holds with
the newly enqueued ids added to `S`; the newly enqueued ids are distinct,
outside `S`, and present in the table. -/
theorem decChildren_spec :
    ∀ (cs : List String) (S : String → Prop) (deg : List (String × Int)),
      (∀ c d, deg.lookup c = some d → (S c → d ≤ 0) ∧ (¬ S c → 1 ≤ d)) →
      (∀ c, ((decChildren cs deg).1.lookup c).isSome ↔ ((deg.lookup c).isSome : Prop))
      ∧ (∀ c d, (decChildren cs deg).1.lookup c = some d →
          ((S c ∨ c ∈ (decChildren cs deg).2) → d ≤ 0)
          ∧ ((¬ S c ∧ c ∉ (decChildren cs deg).2) → 1 ≤ d))
      ∧ (decChildren cs deg).2.Nodup
      ∧ (∀ c ∈ (decChildren cs deg).2, ¬ S c ∧ (deg.lookup c).isSome) := by
  intro cs
  induction cs with
  | nil =>
    intro S deg h
    refine ⟨fun c => Iff.rfl, ?_, ?_, ?_⟩
    · intro c d hl
      have := h c d hl
      simp only [decChildren, List.not_mem_nil] at *
      exact ⟨fun hc => this.1 (by tauto), fun hc => this.2 hc.1⟩
    · simp [decChildren]
    · simp [decChildren]
  | cons c cs ih =>
    intro S deg h
    cases hlc : deg.lookup c with
    | none =>
      have hred : decChildren (c :: cs) deg = decChildren cs deg := by
        rw [decChildren, hlc]
      rw [hred]
      exact ih S deg h
    | some d =>
      have hred : decChildren (c :: cs) deg
          = ((decChildren cs (setFirst deg c (d - 1))).1,
             if d - 1 = 0 then c :: (decChildren cs (setFirst deg c (d - 1))).2
             else (decChildren cs (setFirst deg c (d - 1))).2) := by
        rw [decChildren, hlc]
      have hkeys : ∀ x, (((setFirst deg c (d - 1)).lookup x).isSome : Prop)
          ↔ ((deg.lookup x).isSome : Prop) :=
        fun x => by rw [lookup_setFirst_isSome]
      have hself : (setFirst deg c (d - 1)).lookup c = some (d - 1) :=
        lookup_setFirst_self deg c d (d - 1) hlc
      by_cases hz : d - 1 = 0
      · -- the degree of `c` reached 0: it is enqueued
        have hd1 : d = 1 := by omega
        have hnotS : ¬ S c := by
          intro hS
          have := (h c d hlc).1 hS
          omega
        have h1 : ∀ c' d', (setFirst deg c (d - 1)).lookup c' = some d' →
            ((S c' ∨ c' = c) → d' ≤ 0) ∧ (¬ (S c' ∨ c' = c) → 1 ≤ d') := by
          intro c' d' hl'
          by_cases hcc : c' = c
          · rw [hcc] at hl'
            rw [hself] at hl'
            cases hl'
            rw [hcc]
            exact ⟨fun _ => by omega, fun hns => absurd (Or.inr rfl) hns⟩
          · rw [lookup_setFirst_ne deg c c' (d - 1) hcc] at hl'
            have := h c' d' hl'
            exact ⟨fun hc => this.1 (by tauto), fun hc => this.2 (by tauto)⟩
        obtain ⟨ih1, ih2, ih3, ih4⟩ := ih (fun x => S x ∨ x = c) (setFirst deg c (d - 1)) h1
        rw [hred]
        simp only [if_pos hz]
        refine ⟨?_, ?_, ?_, ?_⟩
        · intro x
          rw [ih1 x, hkeys x]
        · intro x dx hlx
          have := ih2 x dx hlx
          constructor
          · intro hc
            refine this.1 ?_
            rcases hc with hc | hc
            · exact Or.inl (Or.inl hc)
            · rcases List.mem_cons.mp hc with hc | hc
              · exact Or.inl (Or.inr hc)
              · exact Or.inr hc
          · intro hc
            refine this.2 ⟨?_, ?_⟩
            · rintro (hS | hEq)
              · exact hc.1 hS
              · exact hc.2 (by rw [hEq]; exact List.mem_cons_self _ _)
            · intro hmem
              exact hc.2 (List.mem_cons_of_mem c hmem)
        · refine List.nodup_cons.mpr ⟨?_, ih3⟩
          intro hmem
          exact (ih4 c hmem).1 (Or.inr rfl)
        · intro x hx
          rcases List.mem_cons.mp hx with hx | hx
          · subst hx
            exact ⟨hnotS, by rw [hlc]; rfl⟩
          · have := ih4 x hx
            exact ⟨fun hS => this.1 (Or.inl hS), (hkeys x).mp this.2⟩
      · -- the degree of `c` stays nonzero: nothing is enqueued for it
        have h1 : ∀ c' d', (setFirst deg c (d - 1)).lookup c' = some d' →
            (S c' → d' ≤ 0) ∧ (¬ S c' → 1 ≤ d') := by
          intro c' d' hl'
          by_cases hcc : c' = c
          · rw [hcc] at hl'
            rw [hself] at hl'
            cases hl'
            rw [hcc]
            have hcd := h c d hlc
            exact ⟨fun hS => by have := hcd.1 hS; omega,
                   fun hnS => by have := hcd.2 hnS; omega⟩
          · rw [lookup_setFirst_ne deg c c' (d - 1) hcc] at hl'
            exact h c' d' hl'
        obtain ⟨ih1, ih2, ih3, ih4⟩ := ih S (setFirst deg c (d - 1)) h1
        rw [hred]
        simp only [if_neg hz]
        refine ⟨?_, ?_, ih3, ?_⟩
        · intro x
          rw [ih1 x, hkeys x]
        · exact ih2
        · intro x hx
          have := ih4 x hx
          exact ⟨this.1, (hkeys x).mp this.2⟩

/-- The Kahn loop never emits an id twice and only emits node keys: the
popped/queued set stays duplicate-free because an id is enqueued only at
the moment its (strictly decreasing) degree hits exactly 0. -/
theorem kahnLoop_nodup_subset (nodes : List (String × Problem)) :
    ∀ (n : Nat) (deg : List (String × Int)) (queue order : List String),
      queue.length + posSum deg ≤ n →
      (order ++ queue).Nodup →
      (∀ c d, deg.lookup c = some d →
        ((c ∈ order ++ queue → d ≤ 0) ∧ (c ∉ order ++ queue → 1 ≤ d))) →
      (∀ c ∈ queue, (deg.lookup c).isSome) →
      (∀ c ∈ order, c ∈ keysOf nodes) →
      (∀ c, (deg.lookup c).isSome → c ∈ keysOf nodes) →
      (kahnLoop nodes deg queue order).Nodup
      ∧ ∀ c ∈ kahnLoop nodes deg queue order, c ∈ keysOf nodes := by
  intro n
  induction n with
  | zero =>
    intro deg queue order hm hnd hdeg hq horder hkeys
    have hq0 : queue = [] := by
      cases queue with
      | nil => rfl
      | cons a as => simp [List.length_cons] at hm
    subst hq0
    rw [kahnLoop]
    exact ⟨by simpa using hnd, horder⟩
  | succ n ih =>
    intro deg queue order hm hnd hdeg hq horder hkeys
    cases queue with
    | nil =>
      rw [kahnLoop]
      exact ⟨by simpa using hnd, horder⟩
    | cons pid qs =>
      have hred : kahnLoop nodes deg (pid :: qs) order
          = kahnLoop nodes (decChildren (childrenOf nodes pid) deg).1
              (qs ++ (decChildren (childrenOf nodes pid) deg).2) (order ++ [pid]) := by
        rw [kahnLoop]
      obtain ⟨k1, k2, k3, k4⟩ := decChildren_spec (childrenOf nodes pid)
        (fun x => x ∈ order ++ pid :: qs) deg hdeg
      set r := decChildren (childrenOf nodes pid) deg with hr
      have hmemiff : ∀ x, (x ∈ (order ++ [pid]) ++ (qs ++ r.2))
          ↔ (x ∈ order ++ pid :: qs ∨ x ∈ r.2) := by
        intro x
        simp [or_assoc, or_comm, or_left_comm]
      rw [hred]
      refine ih r.1 (qs ++ r.2) (order ++ [pid]) ?_ ?_ ?_ ?_ ?_ ?_
      · have hps := decChildren_posSum (childrenOf nodes pid) deg
        rw [← hr] at hps
        simp only [List.length_append, List.length_cons] at hm ⊢
        omega
      · have hresh : ((order ++ pid :: qs) ++ r.2).Nodup := by
          refine List.Nodup.append hnd k3 ?_
          intro a ha hb
          exact (k4 a hb).1 ha
        simpa [List.append_assoc] using hresh
      · intro c d hl
        have := k2 c d hl
        constructor
        · intro hc
          exact this.1 (by rw [hmemiff c] at hc; exact hc)
        · intro hc
          refine this.2 ?_
          rw [hmemiff c] at hc
          push_neg at hc
          exact ⟨hc.1, hc.2⟩
      · intro c hc
        rcases List.mem_append.mp hc with hc | hc
        · exact (k1 c).mpr (hq c (List.mem_cons_of_mem pid hc))
        · exact (k1 c).mpr (k4 c hc).2
      · intro c hc
        rcases List.mem_append.mp hc with hc | hc
        · exact horder c hc
        · have : c = pid := by simpa using hc
          rw [this]
          exact hkeys pid (hq pid (List.mem_cons_self _ _))
      · intro c hc
        exact hkeys c ((k1 c).mp hc)

theorem mem_lookup_of_nodup (l : List (String × Int)) (c : String) (d : Int)
    (hnd : (keysOf l).Nodup) (hmem : (c, d) ∈ l) : l.lookup c = some d := by
  induction l with
  | nil => simp at hmem
  | cons kv rest ih =>
    have hnd2 : (kv.1 :: keysOf rest).Nodup := by simpa [keysOf] using hnd
    obtain ⟨hnotin, hndr⟩ := List.nodup_cons.mp hnd2
    rcases List.mem_cons.mp hmem with hmem | hmem
    · rw [← hmem, List.lookup]
      simp
    · have hk : c ≠ kv.1 := by
        intro hc
        refine hnotin ?_
        rw [← hc]
        exact List.mem_map_of_mem (fun kv => kv.1) hmem
      have hbeq : (c == kv.1) = false := by simp [hk]
      rw [List.lookup]
      simp only [hbeq]
      exact ih hndr hmem

theorem mem_initialQueue (deg : List (String × Int)) (c : String) :
    c ∈ initialQueue deg ↔ (c, 0) ∈ deg := by
  constructor
  · intro h
    simp only [initialQueue, List.mem_map, List.mem_filter] at h
    obtain ⟨kv, ⟨hmem, hz⟩, hc⟩ := h
    have : kv = (c, 0) := by
      obtain ⟨a, b⟩ := kv
      simp at hz hc
      rw [hc, hz]
    rw [← this]
    exact hmem
  · intro h
    simp only [initialQueue, List.mem_map, List.mem_filter]
    exact ⟨(c, 0), ⟨h, by simp⟩, rfl⟩

theorem initialQueue_nodup (deg : List (String × Int))
    (hnd : (keysOf deg).Nodup) : (initialQueue deg).Nodup := by
  have hsub : List.Sublist ((deg.filter (fun kv => kv.2 == 0)).map (fun kv => kv.1))
      (deg.map (fun kv => kv.1)) :=
    (List.filter_sublist deg).map (fun kv => kv.1)
  exact List.Nodup.sublist hsub hnd

/-- Output of the Kahn pass of `_recalculate_order` on well-formed nodes:
duplicate-free and made of node keys only. -/
theorem kahn_pass_facts (nodes : List (String × Problem))
    (hnd : (keysOf nodes).Nodup) :
    (kahnLoop nodes (initialDeg nodes) (initialQueue (initialDeg nodes)) []).Nodup
    ∧ ∀ c ∈ kahnLoop nodes (initialDeg nodes) (initialQueue (initialDeg nodes)) [],
        c ∈ keysOf nodes := by
  have hkeys0 : keysOf (initialDeg nodes) = keysOf nodes := initialDeg_keysOf nodes
  have hnd0 : (keysOf (initialDeg nodes)).Nodup := by rw [hkeys0]; exact hnd
  have hnn := initialDeg_nonneg nodes
  refine kahnLoop_nodup_subset nodes
    ((initialQueue (initialDeg nodes)).length + posSum (initialDeg nodes))
    (initialDeg nodes) (initialQueue (initialDeg nodes)) [] le_rfl ?_ ?_ ?_ ?_ ?_
  · simpa using initialQueue_nodup (initialDeg nodes) hnd0
  · intro c d hl
    have hmem := lookup_mem (initialDeg nodes) c d hl
    have hd0 : 0 ≤ d := hnn (c, d) hmem
    constructor
    · intro hc
      simp only [List.nil_append] at hc
      have h0 : (c, 0) ∈ initialDeg nodes := (mem_initialQueue _ c).mp hc
      have := mem_lookup_of_nodup (initialDeg nodes) c 0 hnd0 h0
      rw [hl] at this
      cases this
      omega
    · intro hc
      simp only [List.nil_append] at hc
      by_cases hz : d = 0
      · exfalso
        refine hc ((mem_initialQueue _ c).mpr ?_)
        rw [← hz]
        exact hmem
      · omega
  · intro c hc
    have h0 : (c, 0) ∈ initialDeg nodes := (mem_initialQueue _ c).mp hc
    rw [lookup_isSome_iff_memKeys]
    exact List.mem_map_of_mem (fun kv => kv.1) h0
  · intro c hc
    simp at hc
  · intro c hc
    rw [lookup_isSome_iff_memKeys, hkeys0] at hc
    exact hc

theorem insSorted_perm (key : String → Bool × Nat) (x : String) :
    ∀ l : List String, (insSorted key x l).Perm (x :: l) := by
  intro l
  induction l with
  | nil => simp [insSorted]
  | cons y ys ih =>
    rw [insSorted]
    by_cases hk : keyLt (key y) (key x) = true
    · rw [if_pos hk]
      exact (ih.cons y).trans (List.Perm.swap x y ys)
    · rw [if_neg hk]

theorem stableSortBy_perm (key : String → Bool × Nat) :
    ∀ l : List String, (stableSortBy key l).Perm l := by
  intro l
  induction l with
  | nil => simp [stableSortBy]
  | cons x xs ih =>
    rw [stableSortBy]
    exact (insSorted_perm key x (stableSortBy key xs)).trans (ih.cons x)

/-- `_recalculate_order` produces a permutation of the node-key set
whenever the node keys are distinct (as the graph class maintains),
cycles included. -/
theorem recalculateOrder_perm (nodes : List (String × Problem))
    (hnd : (keysOf nodes).Nodup) :
    (recalculateOrder nodes).Perm (keysOf nodes) := by
  obtain ⟨horder_nd, horder_sub⟩ := kahn_pass_facts nodes hnd
  set order := kahnLoop nodes (initialDeg nodes) (initialQueue (initialDeg nodes)) []
    with horder
  have hsplit : ((keysOf nodes).filter (fun pid => order.contains pid)
      ++ (keysOf nodes).filter (fun pid => !(order.contains pid))).Perm (keysOf nodes) :=
    List.filter_append_perm _ (keysOf nodes)
  have hfirst : order.Perm ((keysOf nodes).filter (fun pid => order.contains pid)) := by
    rw [List.perm_ext_iff_of_nodup horder_nd (List.Nodup.filter _ hnd)]
    intro a
    simp only [List.mem_filter]
    constructor
    · intro ha
      refine ⟨horder_sub a ha, ?_⟩
      simpa [List.contains, List.elem_iff] using ha
    · rintro ⟨_, hc⟩
      simpa [List.contains, List.elem_iff] using hc
  have happend : (order
      ++ (keysOf nodes).filter (fun pid => !(order.contains pid))).Perm (keysOf nodes) :=
    (List.Perm.append_right _ hfirst).trans hsplit
  have hunfold : recalculateOrder nodes
      = stableSortBy (sortKey nodes)
          (order ++ (keysOf nodes).filter (fun pid => !(order.contains pid))) := by
    rw [recalculateOrder]
  rw [hunfold]
  exact (stableSortBy_perm (sortKey nodes) _).trans happend

theorem mem_keys_dictInsert (l : List (String × Problem)) (k : String) (p : Problem)
    (x : String) : x ∈ keysOf (dictInsert l k p) ↔ x ∈ keysOf l ∨ x = k := by
  induction l with
  | nil => simp [dictInsert, keysOf]
  | cons kv rest ih =>
    by_cases hk : kv.1 = k
    · simp only [dictInsert, if_pos hk, keysOf, List.map_cons, List.mem_cons]
      rw [hk]
      simp [keysOf]
      tauto
    · simp only [dictInsert, if_neg hk, keysOf, List.map_cons, List.mem_cons]
      have ih2 := ih
      simp only [keysOf] at ih2
      rw [ih2]
      tauto

theorem dictInsert_keys_nodup (l : List (String × Problem)) (k : String) (p : Problem)
    (h : (keysOf l).Nodup) : (keysOf (dictInsert l k p)).Nodup := by
  induction l with
  | nil => simp [dictInsert, keysOf]
  | cons kv rest ih =>
    have h2 : (kv.1 :: keysOf rest).Nodup := by simpa [keysOf] using h
    obtain ⟨hni, hnr⟩ := List.nodup_cons.mp h2
    by_cases hk : kv.1 = k
    · simp only [dictInsert, if_pos hk, keysOf, List.map_cons]
      refine List.nodup_cons.mpr ⟨?_, by simpa [keysOf] using hnr⟩
      rw [← hk]
      simpa [keysOf] using hni
    · simp only [dictInsert, if_neg hk, keysOf, List.map_cons]
      refine List.nodup_cons.mpr ⟨?_, by simpa [keysOf] using ih hnr⟩
      intro hmem
      have hx := (mem_keys_dictInsert rest k p kv.1).mp (by simpa [keysOf] using hmem)
      rcases hx with hm | hm
      · exact hni (by simpa [keysOf] using hm)
      · exact hk hm

/-- C3: on every graph reachable by a sequence of `add` calls from the
empty graph — cycles in `caused_by`/`may_cause` included — the recomputed
`execution_order` is a permutation of the node-id set: no id is dropped
and none is duplicated. (Termination of the recomputation is witnessed by
`kahnLoop` being a total function, whose well-founded measure is the queue
length plus the positive part of the in-degree table.) -/
theorem execution_order_permutation (ps : List Problem) :
    ((ps.foldl ProblemGraph.add ProblemGraph.empty).execution_order).Perm
        (keysOf (ps.foldl ProblemGraph.add ProblemGraph.empty).nodes)
    ∧ ((ps.foldl ProblemGraph.add ProblemGraph.empty).execution_order).Nodup
    ∧ (keysOf (ps.foldl ProblemGraph.add ProblemGraph.empty).nodes).Nodup := by
  have haux : ∀ (qs : List Problem) (g : ProblemGraph),
      (keysOf g.nodes).Nodup → g.execution_order.Perm (keysOf g.nodes) →
      (keysOf (qs.foldl ProblemGraph.add g).nodes).Nodup
      ∧ (qs.foldl ProblemGraph.add g).execution_order.Perm
          (keysOf (qs.foldl ProblemGraph.add g).nodes) := by
    intro qs
    induction qs with
    | nil => intro g h1 h2; exact ⟨h1, h2⟩
    | cons q qs ih =>
      intro g h1 h2
      rw [List.foldl]
      refine ih (g.add q) ?_ ?_
      · simpa [ProblemGraph.add] using dictInsert_keys_nodup g.nodes q.id q h1
      · have hnodup := dictInsert_keys_nodup g.nodes q.id q h1
        simpa [ProblemGraph.add] using
          recalculateOrder_perm (dictInsert g.nodes q.id q) hnodup
  obtain ⟨h1, h2⟩ := haux ps ProblemGraph.empty
    (by simp [ProblemGraph.empty, keysOf]) (by simp [ProblemGraph.empty, keysOf])
  exact ⟨h2, h2.nodup_iff.mpr h1, h1⟩

end FixOS
